import Mathlib

/-!
Shallow embedding of the ViBE editor (src/main.py): the undo/redo engine
(`new_undoable`), the buffer-mutation actions, cursor movement, the mode
dispatch tables, the command registry, and file loading.

Lines are lists of characters and the buffer is a list of lines; Python's
in-place list mutation is modelled by explicit state passing.  Python raises
`IndexError` on out-of-range indexing; the embedding totalises those points
with `List.getD` / `List.set` / `List.eraseIdx` (which default or leave the
list unchanged out of range).  The theorems below only depend on in-range
behaviour at such points.
-/

/-- `clamp` from src/main.py: clamp a value to the range [minimum, maximum]. -/
def clamp (minimum maximum value : Int) : Int :=
  if value < minimum then minimum
  else if value > maximum then maximum
  else value

abbrev Line : Type := List Char
abbrev Buffer : Type := List Line

/-! ### The Python `re` module, modelled for the fragment used by the editor

`command_search` and `search_and_replace` hand the user's pattern string to
`re.search` / `re.sub`.  The regular-expression language is modelled for the
fragment consisting of literal characters and the metacharacter `.`
(any character), with Python's leftmost, non-overlapping, replace-all
semantics for `re.sub`. -/

inductive RxTok where
  | lit (c : Char)
  | dot
deriving DecidableEq

abbrev Rx : Type := List RxTok

def tokMatches : RxTok → Char → Bool
  | .lit c, d => c == d
  | .dot, _ => true

/-- Match a pattern against the front of `s`; return the suffix left over. -/
def rxMatchHead : Rx → List Char → Option (List Char)
  | [], s => some s
  | _ :: _, [] => none
  | t :: ts, c :: cs => if tokMatches t c then rxMatchHead ts cs else none

/-- Python `re.search` on a single line (fragment): the start index of the
leftmost match, or `none`. -/
def rxSearchAux (p : Rx) : List Char → Nat → Option Nat
  | [], i => if (rxMatchHead p []).isSome then some i else none
  | c :: cs, i =>
    if (rxMatchHead p (c :: cs)).isSome then some i else rxSearchAux p cs (i + 1)

def rxSearch (p : Rx) (s : List Char) : Option Nat :=
  rxSearchAux p s 0

/-- Scanning step of `re.sub`: replace each leftmost non-overlapping match of
the non-empty pattern `t :: ts`, moving left to right.  `fuel` is a
structural-recursion bound; callers pass the length of the line, which the
scan never exceeds because every step consumes at least one character. -/
def reSubGo (t : RxTok) (ts : Rx) (r : List Char) : Nat → List Char → List Char
  | _, [] => []
  | 0, s => s
  | fuel + 1, c :: cs =>
    if tokMatches t c then
      match rxMatchHead ts cs with
      | some rest => r ++ reSubGo t ts r fuel rest
      | none => c :: reSubGo t ts r fuel cs
    else c :: reSubGo t ts r fuel cs

/-- Python `re.sub(p, r, s)` (fragment).  An empty pattern matches at every
position, interleaving the replacement (Python ≥ 3.7 behaviour). -/
def reSub (p : Rx) (r : List Char) (s : List Char) : List Char :=
  match p with
  | [] => r ++ s.foldr (fun c acc => c :: (r ++ acc)) []
  | t :: ts => reSubGo t ts r s.length s

/-- `search_and_replace` from src/main.py: `for index, line in
enumerate(buffer): buffer[index] = re.sub(search, replace, line)`, an index
loop writing into the live list.  `fuel` bounds the loop; the entry point
passes the buffer length, and each iteration preserves the length. -/
def sarLoop (s : Rx) (r : List Char) : Nat → Buffer → Nat → Buffer
  | 0, buf, _ => buf
  | fuel + 1, buf, i =>
    if h : i < buf.length then
      sarLoop s r fuel (buf.set i (reSub s r buf[i])) (i + 1)
    else buf

def search_and_replace (buf : Buffer) (s : Rx) (r : List Char) : Buffer :=
  sarLoop s r buf.length buf 0

/-! ### Buffer-mutation actions and the undoable engine -/

/-- The buffer-mutation actions committed to the undoable in src/main.py:
`key_action` from `generate_generic_key`, `action_newline`,
`action_backspace`, and `search_and_replace_action` from
`command_search_replace`. -/
inductive Act where
  | insertChar (k : Nat)
  | newline
  | backspace
  | searchReplace (s : Rx) (r : List Char)
deriving DecidableEq

/-- Python `list.insert(idx, x)`: insert before `idx`, appending when `idx`
is past the end. -/
def pyInsert (idx : Nat) (x : Line) (l : Buffer) : Buffer :=
  l.take idx ++ [x] ++ l.drop idx

/-- Run one action against the buffer, as `run_action` does.  `gc, gl` are
the carried `(column, line_no)` stored with the action; `col, line` are the
live cursor variables of `main`, which the action's side effects update.
Returns the new `(buffer, column, line_no)`.

In `action_backspace`'s first branch the source assigns `lind_no =
c_line_no` — a misspelling of `line_no` — so the live line is left
unchanged there; the last branch changes nothing at all. -/
def runAct (a : Act) (buf : Buffer) (gc gl col line : Nat) :
    Buffer × Nat × Nat :=
  match a with
  | .insertChar k =>
    let ln := buf.getD gl []
    (buf.set gl (ln.take gc ++ [Char.ofNat k] ++ ln.drop gc), gc + 1, gl)
  | .newline =>
    let ln := buf.getD gl []
    ((pyInsert (gl + 1) (ln.drop gc) buf).set gl (ln.take gc), 0, gl + 1)
  | .backspace =>
    let ln := buf.getD gl []
    if ln.length ≠ 0 ∧ 0 < gc then
      (buf.set gl (ln.take (gc - 1) ++ ln.drop gc), gc - 1, line)
    else if gl ≠ 0 then
      let buf' := buf.eraseIdx gl
      (buf', (buf'.getD (gl - 1) []).length, gl - 1)
    else (buf, col, line)
  | .searchReplace s r =>
    let buf' := search_and_replace buf s r
    (buf', (clamp 0 ((buf'.getD gl []).length : Int) (gc : Int)).toNat, gl)

/-- A history / redo-stack record: an action together with its carried
`(column, line_no)` snapshot. -/
abbrev Entry : Type := Act × Nat × Nat

/-- The full mutable state of `new_undoable` plus the cursor variables of
`main` that the actions' side effects touch.  `history` and `redo_stack`
are kept most-recent-first: Python appends at the end and pops the end, so
Python's `append`/`pop` become `cons`/head-match here. -/
structure Ed where
  pristine : Buffer
  buffer : Buffer
  column : Nat
  line_no : Nat
  history : List Entry
  redo_stack : List Entry
deriving DecidableEq

/-- Replay a chronological list of recorded `(action, carried)` entries, as
`remake_state`'s loop does, starting from buffer `buf` and the current live
cursor `(col, line)` (which `remake_state` does not reset). -/
def replayFrom (buf : Buffer) (col line : Nat) : List Entry → Buffer × Nat × Nat
  | [] => (buf, col, line)
  | e :: rest =>
    let r := runAct e.1 buf e.2.1 e.2.2 col line
    replayFrom r.1 r.2.1 r.2.2 rest

/-- `undoable(action)` for a mutation function: `remember_action((action,
carried_state_gen()))` — run it, append it to the history — then clear the
redo stack.  The carried state generator reads the live cursor. -/
def stepCommit (ed : Ed) (a : Act) : Ed :=
  let r := runAct a ed.buffer ed.column ed.line_no ed.column ed.line_no
  { ed with
    buffer := r.1, column := r.2.1, line_no := r.2.2
    history := (a, ed.column, ed.line_no) :: ed.history
    redo_stack := [] }

/-- `undoable(ACTION_UNDO)`: if the history is non-empty, pop its most
recent entry onto the redo stack and rebuild the state by replaying the
remaining history, oldest first, from a fresh copy of the starting state.
No-op on an empty history. -/
def stepUndo (ed : Ed) : Ed :=
  match ed.history with
  | [] => ed
  | e :: h =>
    let r := replayFrom ed.pristine ed.column ed.line_no h.reverse
    { ed with
      buffer := r.1, column := r.2.1, line_no := r.2.2
      history := h
      redo_stack := e :: ed.redo_stack }

/-- `undoable(ACTION_REDO)`: if the redo stack is non-empty, pop its top
entry and re-commit it through `remember_action` — with its stored carried
state.  No-op on an empty redo stack; does not clear the redo stack. -/
def stepRedo (ed : Ed) : Ed :=
  match ed.redo_stack with
  | [] => ed
  | e :: r =>
    let s := runAct e.1 ed.buffer e.2.1 e.2.2 ed.column ed.line_no
    { ed with
      buffer := s.1, column := s.2.1, line_no := s.2.2
      history := e :: ed.history
      redo_stack := r }

/-- `undoable(ACTION_NOOP)` returns the state and changes nothing. -/
def stepNoop (ed : Ed) : Ed := ed

/-- A fresh undoable over starting buffer `p`, with `main`'s cursor
variables at their initial (or post-`command_file`) values `(0, 0)`. -/
def initEd (p : Buffer) : Ed :=
  { pristine := p, buffer := p, column := 0, line_no := 0
    history := [], redo_stack := [] }

/-- Commit a chronological list of mutation actions, one after another. -/
def commitChain (p : Buffer) (as : List Act) : Ed :=
  as.foldl stepCommit (initEd p)

/-- `move_cursor(c, l)` from src/main.py: read the buffer via a NOOP
action, clamp the target line into `[0, len(state) - 1]`, then clamp the
target column into `[0, len(state[line_no])]` against the destination
line. -/
def move_cursor (ed : Ed) (c l : Int) : Ed :=
  let state := ed.buffer
  let newLine := (clamp 0 ((state.length : Int) - 1) ((ed.line_no : Int) + l)).toNat
  let newCol :=
    (clamp 0 (((state.getD newLine []).length : Int)) ((ed.column : Int) + c)).toNat
  { ed with line_no := newLine, column := newCol }

/-- The documented cursor invariant: `0 ≤ line < len(buffer)` and
`0 ≤ column ≤ len(buffer[line])` (the lower bounds are by `Nat`). -/
def CursorInv (buf : Buffer) (col line : Nat) : Prop :=
  line < buf.length ∧ col ≤ (buf.getD line []).length

instance (buf : Buffer) (col line : Nat) : Decidable (CursorInv buf col line) := by
  unfold CursorInv; infer_instance

/-! ### Mode dispatch state machine -/

inductive Mode where
  | insert
  | normal
  | command
deriving DecidableEq

/-- What a bound key handler does, as data.  Each constructor corresponds to
one of the zero-argument handlers installed in the `modes` tables of
src/main.py. -/
inductive Handler where
  | noop
  | insertChar (k : Nat)
  | newline
  | backspace
  | undo
  | redo
  | setMode (m : Mode)
  | moveCursorBy (c l : Int)
  | appendCmdChar (k : Nat)
  | runCommand
  | cmdBackspace
deriving DecidableEq

/-- The printable/extended byte test shared by `generate_generic_key` and
`generate_command_keypress_function`: `32 <= k < 127 or 128 <= k < 256`. -/
def printableExtended (k : Nat) : Bool :=
  (32 ≤ k && k < 127) || (128 ≤ k && k < 256)

/-- The `modes` transition table of src/main.py on the Unix path
(`is_unix = True`), including all later overriding assignments.  Each mode's
dict is built by a comprehension over `range(255)`, so keys `≥ 255` are
absent (`none` here): `modes[current_mode][ord(key)]` raises `KeyError` for
them.  Overriding assignments: newline `10` / carriage return `13`, escape
`27`, backspace `127`, Ctrl-Z `26`, Ctrl-X `24`, and in normal mode
`i`=105, `:`=58, `h`=104, `l`=108, `j`=106, `k`=107. -/
def modesLookup : Mode → Nat → Option Handler
  | .insert, k =>
    if k < 255 then some (
      if k = 10 then .newline
      else if k = 13 then .noop
      else if k = 27 then .setMode .normal
      else if k = 127 then .backspace
      else if k = 26 then .undo
      else if k = 24 then .redo
      else if printableExtended k then .insertChar k
      else .noop)
    else none
  | .normal, k =>
    if k < 255 then some (
      if k = 105 then .setMode .insert
      else if k = 58 then .setMode .command
      else if k = 104 then .moveCursorBy (-1) 0
      else if k = 108 then .moveCursorBy 1 0
      else if k = 106 then .moveCursorBy 0 1
      else if k = 107 then .moveCursorBy 0 (-1)
      else if k = 26 then .undo
      else if k = 24 then .redo
      else .noop)
    else none
  | .command, k =>
    if k < 255 then some (
      if k = 27 then .setMode .normal
      else if k = 10 then .runCommand
      else if k = 13 then .noop
      else if k = 127 then .cmdBackspace
      else if printableExtended k then .appendCmdChar k
      else .noop)
    else none

/-! ### Command registry -/

/-- The keys of the `commands` dict of src/main.py, in insertion order. -/
def commandNames : List (List Char) :=
  [['q'], ['w'], ['f'], ['f', 'i', 'l', 'e'],
   ['d', 'e', 'b', 'u', 'g'], ['/'], ['s']]

/-- The scan of `run_command`: `i = 0; while i <= len(cmd): if cmd[:i] in
commands: commands[cmd[:i]](cmd[i:]); ...; i += 1`.  Returns the matched
name and the rest of the string handed to its handler, or `none` when the
loop falls through.  `fuel` bounds the loop structurally; the entry point
passes `len(cmd) + 1`, exactly the number of iterations of the while. -/
def resolveFrom (cmd : List Char) : Nat → Nat → Option (List Char × List Char)
  | 0, _ => none
  | fuel + 1, i =>
    if i ≤ cmd.length then
      if cmd.take i ∈ commandNames then some (cmd.take i, cmd.drop i)
      else resolveFrom cmd fuel (i + 1)
    else none

def run_command_resolve (cmd : List Char) : Option (List Char × List Char) :=
  resolveFrom cmd (cmd.length + 1) 0

/-- `run_command` as a transformer of the mode-machine state it touches:
it snapshots and clears `command_buffer`, scans for a matching command
name, and only on a match invokes the handler and calls
`set_mode("normal")`.  Returns the new `(command_buffer, mode)` and the
resolved `(name, args)` pair, if any. -/
def runCommandStep (commandBuffer : List Char) (m : Mode) :
    List Char × Mode × Option (List Char × List Char) :=
  match run_command_resolve commandBuffer with
  | some (n, args) => ([], Mode.normal, some (n, args))
  | none => ([], m, none)

/-- The line scan of `command_search`: the first line index holding a
match, together with the match's start column — the values assigned to
`line_no` and `column` (via `match.span()[0]`). -/
def findFirstMatch : Buffer → Rx → Nat → Option (Nat × Nat)
  | [], _, _ => none
  | ln :: rest, p, i =>
    match rxSearch p ln with
    | some c => some (i, c)
    | none => findFirstMatch rest p (i + 1)

/-! ### File loading -/

/-- The whitespace test of Python's `str.split()` with no argument. -/
def isPySpace (c : Char) : Bool :=
  c == ' ' || c == '\t' || c == '\n' || c == '\r' ||
  c == '\x0b' || c == '\x0c'

/-- Python `contents.split()` (no separator): split on runs of whitespace
and drop empty pieces. -/
def pySplitWs (s : List Char) : List (List Char) :=
  (s.splitOnP isPySpace).filter (fun w => w ≠ [])

/-- Python `contents.split("\n")`: split on each newline, keeping empty
pieces; the split of the empty string is `[""]`. -/
def pySplitNl (s : List Char) : List (List Char) :=
  s.splitOn '\n'

/-- The buffer `command_file` builds from a file's text:
`contents.split("\n")`. -/
def command_file_load (contents : List Char) : Buffer :=
  pySplitNl contents

/-- The buffer `main` builds from a startup-argument file: `lines =
contents.split()`, then `if len(lines) == 0: lines.append("")`. -/
def startup_load (contents : List Char) : Buffer :=
  let lines := pySplitWs contents
  if lines = [] then [[]] else lines

/-- A history all of whose entries are backspaces carried at `(0, 0)` —
the only committed actions that change neither buffer nor cursor however
they are replayed. -/
def histNoop (h : List Entry) : Prop :=
  ∀ e ∈ h, e = (Act.backspace, 0, 0)

/-! ## Lemmas about the undoable engine -/

theorem stepCommit_pristine (ed : Ed) (a : Act) :
    (stepCommit ed a).pristine = ed.pristine := rfl

theorem stepCommit_buffer (ed : Ed) (a : Act) :
    (stepCommit ed a).buffer =
      (runAct a ed.buffer ed.column ed.line_no ed.column ed.line_no).1 := rfl

theorem stepCommit_column (ed : Ed) (a : Act) :
    (stepCommit ed a).column =
      (runAct a ed.buffer ed.column ed.line_no ed.column ed.line_no).2.1 := rfl

theorem stepCommit_line_no (ed : Ed) (a : Act) :
    (stepCommit ed a).line_no =
      (runAct a ed.buffer ed.column ed.line_no ed.column ed.line_no).2.2 := rfl

theorem stepCommit_history (ed : Ed) (a : Act) :
    (stepCommit ed a).history = (a, ed.column, ed.line_no) :: ed.history := rfl

theorem stepCommit_redo (ed : Ed) (a : Act) :
    (stepCommit ed a).redo_stack = [] := rfl

/-- The buffer produced by an action does not depend on the live cursor:
only the cursor side effects read it. -/
theorem runAct_fst_cur (a : Act) (buf : Buffer) (gc gl c l c' l' : Nat) :
    (runAct a buf gc gl c l).1 = (runAct a buf gc gl c' l').1 := by
  cases a with
  | insertChar k => rfl
  | newline => rfl
  | backspace =>
    simp only [runAct]
    split
    · rfl
    · split <;> rfl
  | searchReplace s r => rfl

/-- A backspace whose carried state is `(0, 0)` changes nothing: the first
branch needs a positive carried column and the second a nonzero carried
line. -/
theorem runAct_backspace_noop (buf : Buffer) (c l : Nat) :
    runAct Act.backspace buf 0 0 c l = (buf, c, l) := by
  simp [runAct]

theorem replayFrom_nil (buf : Buffer) (col line : Nat) :
    replayFrom buf col line [] = (buf, col, line) := rfl

theorem replayFrom_cons (buf : Buffer) (col line : Nat) (e : Entry)
    (rest : List Entry) :
    replayFrom buf col line (e :: rest) =
      replayFrom (runAct e.1 buf e.2.1 e.2.2 col line).1
        (runAct e.1 buf e.2.1 e.2.2 col line).2.1
        (runAct e.1 buf e.2.1 e.2.2 col line).2.2 rest := rfl

theorem replayFrom_append (h1 h2 : List Entry) (buf : Buffer) (col line : Nat) :
    replayFrom buf col line (h1 ++ h2) =
      replayFrom (replayFrom buf col line h1).1 (replayFrom buf col line h1).2.1
        (replayFrom buf col line h1).2.2 h2 := by
  induction h1 generalizing buf col line with
  | nil => rfl
  | cons e rest ih =>
    rw [List.cons_append, replayFrom_cons, replayFrom_cons, ih]

/-- Replaying a history of `(backspace, 0, 0)` entries is the identity. -/
theorem replayFrom_noop (es : List Entry)
    (hn : ∀ e ∈ es, e = (Act.backspace, 0, 0)) (buf : Buffer) (col line : Nat) :
    replayFrom buf col line es = (buf, col, line) := by
  induction es with
  | nil => rfl
  | cons e rest ih =>
    have he : e = (Act.backspace, 0, 0) := hn e (List.mem_cons_self e rest)
    subst he
    rw [replayFrom_cons]
    simp only [runAct_backspace_noop]
    exact ih fun e hm => hn e (List.mem_cons_of_mem _ hm)

theorem commitChain_nil (p : Buffer) : commitChain p [] = initEd p := rfl

theorem commitChain_concat (p : Buffer) (as : List Act) (a : Act) :
    commitChain p (as ++ [a]) = stepCommit (commitChain p as) a := by
  simp [commitChain, List.foldl_append]

theorem commitChain_pristine (p : Buffer) (as : List Act) :
    (commitChain p as).pristine = p := by
  induction as using List.reverseRecOn with
  | nil => rfl
  | append_singleton as a ih => rw [commitChain_concat, stepCommit_pristine, ih]

theorem commitChain_redo (p : Buffer) (as : List Act) :
    (commitChain p as).redo_stack = [] := by
  induction as using List.reverseRecOn with
  | nil => rfl
  | append_singleton as a _ => rw [commitChain_concat, stepCommit_redo]

theorem commitChain_history_length (p : Buffer) (as : List Act) :
    (commitChain p as).history.length = as.length := by
  induction as using List.reverseRecOn with
  | nil => rfl
  | append_singleton as a ih =>
    rw [commitChain_concat, stepCommit_history]
    simp [ih]

/-- A commit chain whose recorded history consists only of `(backspace, 0, 0)`
entries never left the starting state: every such committed backspace was a
no-op. -/
theorem commitChain_noop (p : Buffer) (as : List Act)
    (hn : histNoop (commitChain p as).history) :
    (commitChain p as).buffer = p ∧ (commitChain p as).column = 0 ∧
      (commitChain p as).line_no = 0 := by
  induction as using List.reverseRecOn with
  | nil => exact ⟨rfl, rfl, rfl⟩
  | append_singleton as a ih =>
    rw [commitChain_concat, stepCommit_history] at hn
    have hhead : (a, (commitChain p as).column, (commitChain p as).line_no) =
        ((Act.backspace : Act), (0 : Nat), (0 : Nat)) :=
      hn _ (List.mem_cons_self _ _)
    have htail : histNoop (commitChain p as).history :=
      fun e he => hn e (List.mem_cons_of_mem _ he)
    obtain ⟨hb, _, _⟩ := ih htail
    have ha : a = Act.backspace := congrArg Prod.fst hhead
    have hc : (commitChain p as).column = 0 := congrArg (fun x => x.2.1) hhead
    have hl : (commitChain p as).line_no = 0 := congrArg (fun x => x.2.2) hhead
    rw [commitChain_concat, stepCommit_buffer, stepCommit_column, stepCommit_line_no,
      ha, hb, hc, hl, runAct_backspace_noop]
    exact ⟨rfl, rfl, rfl⟩

/-- Replaying a commit chain's history from the pristine buffer restores the
chain's buffer whatever the starting cursor is.  The resulting cursor is the
chain's own, except that a history consisting only of carried-`(0, 0)`
backspaces passes the starting cursor straight through. -/
theorem replay_chain (p : Buffer) (as : List Act) (c l : Nat) :
    (replayFrom p c l (commitChain p as).history.reverse).1 =
        (commitChain p as).buffer ∧
      (((replayFrom p c l (commitChain p as).history.reverse).2.1 =
            (commitChain p as).column ∧
          (replayFrom p c l (commitChain p as).history.reverse).2.2 =
            (commitChain p as).line_no) ∨
        ((replayFrom p c l (commitChain p as).history.reverse).2.1 = c ∧
          (replayFrom p c l (commitChain p as).history.reverse).2.2 = l ∧
          histNoop (commitChain p as).history)) := by
  induction as using List.reverseRecOn generalizing c l with
  | nil =>
    refine ⟨rfl, Or.inr ⟨rfl, rfl, ?_⟩⟩
    intro e he
    simp [commitChain_nil, initEd] at he
  | append_singleton as a ih =>
    obtain ⟨hb, hcur⟩ := ih c l
    rw [commitChain_concat, stepCommit_history, stepCommit_buffer, stepCommit_column,
      stepCommit_line_no, List.reverse_cons, replayFrom_append, replayFrom_cons,
      replayFrom_nil]
    rcases hcur with ⟨hc, hl⟩ | ⟨hc, hl, hnoop⟩
    · rw [hb, hc, hl]
      exact ⟨rfl, Or.inl ⟨rfl, rfl⟩⟩
    · obtain ⟨hb0, hc0, hl0⟩ := commitChain_noop p as hnoop
      cases a with
      | backspace =>
        rw [hb, hc, hl, hb0, hc0, hl0, runAct_backspace_noop, runAct_backspace_noop]
        refine ⟨rfl, Or.inr ⟨rfl, rfl, ?_⟩⟩
        intro e he
        rcases List.mem_cons.mp he with h | h
        · rw [h]
        · exact hnoop e h
      | insertChar k =>
        rw [hb, hc, hl]
        exact ⟨runAct_fst_cur _ _ _ _ _ _ _ _, Or.inl ⟨rfl, rfl⟩⟩
      | newline =>
        rw [hb, hc, hl]
        exact ⟨runAct_fst_cur _ _ _ _ _ _ _ _, Or.inl ⟨rfl, rfl⟩⟩
      | searchReplace s r =>
        rw [hb, hc, hl]
        exact ⟨runAct_fst_cur _ _ _ _ _ _ _ _, Or.inl ⟨rfl, rfl⟩⟩

theorem stepUndo_cons (pr b : Buffer) (c l : Nat) (e : Entry)
    (h r : List Entry) :
    stepUndo ⟨pr, b, c, l, e :: h, r⟩ =
      ⟨pr, (replayFrom pr c l h.reverse).1, (replayFrom pr c l h.reverse).2.1,
        (replayFrom pr c l h.reverse).2.2, h, e :: r⟩ := rfl

theorem stepRedo_cons (pr b : Buffer) (c l : Nat) (e : Entry)
    (h r : List Entry) :
    stepRedo ⟨pr, b, c, l, h, e :: r⟩ =
      ⟨pr, (runAct e.1 b e.2.1 e.2.2 c l).1, (runAct e.1 b e.2.1 e.2.2 c l).2.1,
        (runAct e.1 b e.2.1 e.2.2 c l).2.2, e :: h, r⟩ := rfl

/-- The undo phase: applying `UNDO` once per committed action unwinds the
whole history onto the redo stack (in chronological order on top of `r`)
and leaves the pristine buffer.  The final cursor is some `(c', l')`; when
the whole history is made of no-op backspaces, every intermediate replay is
the identity and the cursor passes through unchanged. -/
theorem undo_phase (p : Buffer) (as : List Act) (r : List Entry) (c l : Nat) :
    ∃ c' l',
      stepUndo^[as.length]
          ⟨p, (commitChain p as).buffer, c, l, (commitChain p as).history, r⟩ =
        ⟨p, p, c', l', [], (commitChain p as).history.reverse ++ r⟩ ∧
      (histNoop (commitChain p as).history → c' = c ∧ l' = l) := by
  induction as using List.reverseRecOn generalizing r c l with
  | nil => exact ⟨c, l, rfl, fun _ => ⟨rfl, rfl⟩⟩
  | append_singleton as a ih =>
    obtain ⟨hrepl, _⟩ := replay_chain p as c l
    rw [commitChain_concat, stepCommit_buffer, stepCommit_history,
      show (as ++ [a]).length = as.length + 1 by simp,
      Function.iterate_succ_apply, stepUndo_cons, hrepl]
    obtain ⟨c', l', hI, hIn⟩ :=
      ih ((a, (commitChain p as).column, (commitChain p as).line_no) :: r)
        (replayFrom p c l (commitChain p as).history.reverse).2.1
        (replayFrom p c l (commitChain p as).history.reverse).2.2
    refine ⟨c', l', ?_, ?_⟩
    · rw [hI]
      simp [List.append_assoc]
    · intro hN
      have htail : histNoop (commitChain p as).history :=
        fun e he => hN e (List.mem_cons_of_mem _ he)
      obtain ⟨hc', hl'⟩ := hIn htail
      have hid : replayFrom p c l (commitChain p as).history.reverse = (p, c, l) :=
        replayFrom_noop _ (fun e he => htail e (List.mem_reverse.mp he)) _ _ _
      rw [hid] at hc' hl'
      exact ⟨hc', hl'⟩

/-- The redo phase: applying `REDO` once per stacked entry re-commits the
entries in chronological order, which is exactly a replay of those entries
against the live state. -/
theorem redo_phase (pr : Buffer) (es : List Entry) (b : Buffer) (c l : Nat)
    (h r : List Entry) :
    stepRedo^[es.length] ⟨pr, b, c, l, h, es ++ r⟩ =
      ⟨pr, (replayFrom b c l es).1, (replayFrom b c l es).2.1,
        (replayFrom b c l es).2.2, es.reverse ++ h, r⟩ := by
  induction es generalizing b c l h with
  | nil => rfl
  | cons e rest ih =>
    rw [List.length_cons, Function.iterate_succ_apply, List.cons_append,
      stepRedo_cons, ih, replayFrom_cons]
    simp [List.append_assoc]

/-- `undo_phase` specialised to the commit chain itself: its pristine copy
is `p`, its redo stack is empty, and the undo phase starts from its own
cursor. -/
theorem undo_phase_chain (p : Buffer) (as : List Act) :
    ∃ c' l',
      stepUndo^[as.length] (commitChain p as) =
        ⟨p, p, c', l', [], (commitChain p as).history.reverse⟩ ∧
      (histNoop (commitChain p as).history →
        c' = (commitChain p as).column ∧ l' = (commitChain p as).line_no) := by
  obtain ⟨c', l', hU, hside⟩ :=
    undo_phase p as [] (commitChain p as).column (commitChain p as).line_no
  rw [List.append_nil] at hU
  refine ⟨c', l', ?_, hside⟩
  rw [← hU]
  congr 1
  cases hd : commitChain p as with
  | mk pr b cc ll hh rr =>
    have h1 : pr = p := by
      have hx := commitChain_pristine p as
      rw [hd] at hx
      exact hx
    have h2 : rr = [] := by
      have hx := commitChain_redo p as
      rw [hd] at hx
      exact hx
    subst h1
    subst h2
    rfl

/-- C1: for every sequence of `N` committed mutation actions (no
UNDO/REDO/NOOP among them), applying UNDO `N` times and then REDO `N`
times yields exactly the buffer contents and the live cursor `(column,
line_no)` of the state immediately after the `N`th commit. -/
theorem C1_undo_redo_roundtrip (p : Buffer) (as : List Act) :
    (stepRedo^[as.length] (stepUndo^[as.length] (commitChain p as))).buffer =
        (commitChain p as).buffer ∧
      (stepRedo^[as.length] (stepUndo^[as.length] (commitChain p as))).column =
        (commitChain p as).column ∧
      (stepRedo^[as.length] (stepUndo^[as.length] (commitChain p as))).line_no =
        (commitChain p as).line_no := by
  obtain ⟨c', l', hU, hside⟩ := undo_phase_chain p as
  have hlen : (commitChain p as).history.reverse.length = as.length := by
    rw [List.length_reverse, commitChain_history_length]
  have hR := redo_phase p ((commitChain p as).history.reverse) p c' l' [] []
  rw [List.append_nil] at hR
  rw [hU, ← hlen, hR]
  obtain ⟨hb, hcur⟩ := replay_chain p as c' l'
  rcases hcur with ⟨hc, hl⟩ | ⟨hc, hl, hnoop⟩
  · exact ⟨hb, hc, hl⟩
  · obtain ⟨hcs, hls⟩ := hside hnoop
    exact ⟨hb, hc.trans hcs, hl.trans hls⟩

/-! ## Lemmas about clamping and the cursor invariant -/

theorem clamp_mem (mi ma v : Int) (h : mi ≤ ma) :
    mi ≤ clamp mi ma v ∧ clamp mi ma v ≤ ma := by
  unfold clamp
  split
  · omega
  · split <;> omega

theorem getD_set_self (l : Buffer) (i : Nat) (a : Line) (h : i < l.length) :
    (l.set i a).getD i [] = a := by
  simp [List.getD, List.getElem?_set_self', List.getElem?_eq_getElem h]

theorem sarLoop_length (s : Rx) (r : List Char) (fuel : Nat) :
    ∀ (buf : Buffer) (i : Nat), (sarLoop s r fuel buf i).length = buf.length := by
  induction fuel with
  | zero => intro buf i; rfl
  | succ n ih =>
    intro buf i
    simp only [sarLoop]
    split
    · rw [ih]
      simp
    · rfl

theorem search_and_replace_length (buf : Buffer) (s : Rx) (r : List Char) :
    (search_and_replace buf s r).length = buf.length :=
  sarLoop_length s r buf.length buf 0

/-- Any mutation action committed with a carried state that satisfies the
cursor invariant — and with the live cursor equal to that carried state, as
is the case on the commit path, where the carried state is generated from
the live cursor — yields a state satisfying the invariant again. -/
theorem runAct_inv (a : Act) (buf : Buffer) (gc gl : Nat)
    (h : CursorInv buf gc gl) :
    CursorInv (runAct a buf gc gl gc gl).1 (runAct a buf gc gl gc gl).2.1
      (runAct a buf gc gl gc gl).2.2 := by
  obtain ⟨hl, hc⟩ := h
  cases a with
  | insertChar k =>
    simp only [runAct, CursorInv]
    refine ⟨by simpa using hl, ?_⟩
    rw [getD_set_self _ _ _ (by simpa using hl)]
    simp only [List.length_append, List.length_take, List.length_drop,
      List.length_cons, List.length_nil]
    omega
  | newline =>
    simp only [runAct, CursorInv, pyInsert]
    constructor
    · simp only [List.length_set, List.length_append, List.length_take,
        List.length_drop, List.length_cons, List.length_nil]
      omega
    · exact Nat.zero_le _
  | backspace =>
    simp only [runAct, CursorInv]
    split
    · rename_i hcond
      refine ⟨by simpa using hl, ?_⟩
      rw [getD_set_self _ _ _ (by simpa using hl)]
      simp only [List.length_append, List.length_take, List.length_drop]
      omega
    · split
      · rename_i hcond hgl
        refine ⟨?_, Nat.le_refl _⟩
        rw [List.length_eraseIdx]
        simp only [hl, if_true]
        omega
      · exact ⟨hl, hc⟩
  | searchReplace s r =>
    simp only [runAct, CursorInv]
    constructor
    · rw [search_and_replace_length]
      exact hl
    · have hcl := clamp_mem 0
        (((search_and_replace buf s r).getD gl []).length : Int) (gc : Int)
        (by omega)
      omega

theorem move_cursor_inv (ed : Ed) (c l : Int) (h : ed.buffer ≠ []) :
    CursorInv (move_cursor ed c l).buffer (move_cursor ed c l).column
      (move_cursor ed c l).line_no := by
  have hlen : 1 ≤ ed.buffer.length := by
    cases hb : ed.buffer with
    | nil => exact absurd hb h
    | cons x xs => simp
  simp only [move_cursor, CursorInv]
  have h1 := clamp_mem 0 ((ed.buffer.length : Int) - 1)
    ((ed.line_no : Int) + l) (by omega)
  constructor
  · omega
  · have h2 := clamp_mem 0
      (((ed.buffer.getD
        ((clamp 0 ((ed.buffer.length : Int) - 1) ((ed.line_no : Int) + l)).toNat)
        []).length : Int))
      ((ed.column : Int) + c) (by omega)
    omega

/-! ## Claim theorems -/

/-- C4 (counterexample): commit one insertion on the one-empty-line buffer,
then UNDO.  The history is left empty, the buffer reverts to `[""]`, but
`remake_state` replays nothing and never touches `main`'s cursor
variables, so the live cursor stays at column 1 — violating
`column ≤ len(buffer[line])`. -/
theorem C4_undo_breaks_invariant :
    (stepUndo (stepCommit (initEd [[]]) (Act.insertChar 97))).history = [] ∧
      (stepUndo (stepCommit (initEd [[]]) (Act.insertChar 97))).buffer = [[]] ∧
      (stepUndo (stepCommit (initEd [[]]) (Act.insertChar 97))).column = 1 ∧
      ¬ CursorInv (stepUndo (stepCommit (initEd [[]]) (Act.insertChar 97))).buffer
          (stepUndo (stepCommit (initEd [[]]) (Act.insertChar 97))).column
          (stepUndo (stepCommit (initEd [[]]) (Act.insertChar 97))).line_no := by
  decide

/-- C4 (amended): the cursor invariant `0 ≤ line < len(buffer)` and
`0 ≤ column ≤ len(buffer[line])` holds after every cursor movement, after
every committed mutation action taken from an invariant-satisfying state
(the carried state being generated from the live cursor on the commit
path), and after NOOP.  It is not preserved by UNDO — see
`C4_undo_breaks_invariant`: an UNDO that leaves the history empty keeps
the cursor unchanged while the buffer reverts. -/
theorem C4_cursor_invariant_amended (ed : Ed) (a : Act) (c l : Int)
    (h : CursorInv ed.buffer ed.column ed.line_no) :
    CursorInv (move_cursor ed c l).buffer (move_cursor ed c l).column
        (move_cursor ed c l).line_no ∧
      CursorInv (stepCommit ed a).buffer (stepCommit ed a).column
        (stepCommit ed a).line_no ∧
      CursorInv (stepNoop ed).buffer (stepNoop ed).column
        (stepNoop ed).line_no := by
  refine ⟨?_, ?_, h⟩
  · apply move_cursor_inv
    intro hb
    have := h.1
    rw [hb] at this
    exact absurd this (by simp)
  · exact runAct_inv a ed.buffer ed.column ed.line_no h

theorem C4_cursor_invariant_amended_witness :
    CursorInv (initEd [['a']]).buffer (initEd [['a']]).column
        (initEd [['a']]).line_no ∧
      (CursorInv (move_cursor (initEd [['a']]) 1 0).buffer
          (move_cursor (initEd [['a']]) 1 0).column
          (move_cursor (initEd [['a']]) 1 0).line_no ∧
        CursorInv (stepCommit (initEd [['a']]) (Act.insertChar 98)).buffer
          (stepCommit (initEd [['a']]) (Act.insertChar 98)).column
          (stepCommit (initEd [['a']]) (Act.insertChar 98)).line_no ∧
        CursorInv (stepNoop (initEd [['a']])).buffer
          (stepNoop (initEd [['a']])).column
          (stepNoop (initEd [['a']])).line_no) :=
  ⟨by decide,
    C4_cursor_invariant_amended (initEd [['a']]) (Act.insertChar 98) 1 0
      (by decide)⟩

/-- C5: committing any new mutation action (not UNDO/REDO/NOOP) empties
the redo stack; consequently after the sequence [commit, commit, UNDO,
commit] a REDO changes neither the buffer nor the history. -/
theorem C5_commit_clears_redo (ed : Ed) (a : Act) (p : Buffer)
    (a1 a2 a3 : Act) :
    (stepCommit ed a).redo_stack = [] ∧
      (stepRedo (stepCommit (stepUndo (stepCommit (stepCommit (initEd p) a1)
          a2)) a3)).buffer =
        (stepCommit (stepUndo (stepCommit (stepCommit (initEd p) a1) a2))
          a3).buffer ∧
      (stepRedo (stepCommit (stepUndo (stepCommit (stepCommit (initEd p) a1)
          a2)) a3)).history =
        (stepCommit (stepUndo (stepCommit (stepCommit (initEd p) a1) a2))
          a3).history :=
  ⟨rfl, rfl, rfl⟩

/-- C2 (the code at the failing input): on buffer `["ab", "cd"]`, a
backspace carried at `(column 0, line 1)` takes the `elif c_line_no != 0`
branch, which runs `del state[c_line_no]` — it deletes the carried line
outright instead of merging its content `"cd"` into the previous line.
The result is `["ab"]` with cursor `(column 2, line 0)`, not `["abcd"]`. -/
theorem C2_backspace_deletes_line :
    runAct Act.backspace [['a', 'b'], ['c', 'd']] 0 1 0 1 =
        ([['a', 'b']], 2, 0) ∧
      runAct Act.backspace [['a', 'b'], ['c', 'd']] 0 1 0 1 ≠
        ([['a', 'b', 'c', 'd']], 2, 0) := by
  decide

/-- C3 (the code at the failing input): the `modes` dicts are comprehensions
over `range(255)`, so key code 255 is bound in no mode — dispatching it
raises `KeyError` instead of being a silent no-op — while unbound key codes
below 255 (for example 31 in insert mode, `x` = 120 in normal mode, 1 in
command mode) are indeed mapped to a no-op. -/
theorem C3_key255_missing :
    modesLookup Mode.insert 255 = none ∧
      modesLookup Mode.normal 255 = none ∧
      modesLookup Mode.command 255 = none ∧
      modesLookup Mode.insert 31 = some Handler.noop ∧
      modesLookup Mode.normal 120 = some Handler.noop ∧
      modesLookup Mode.command 1 = some Handler.noop := by
  decide

/-- The index loop of `search_and_replace` substitutes on every line: it is
the map of `re.sub` over the whole buffer. -/
theorem sarLoop_eq_map (s : Rx) (r : List Char) :
    ∀ (fuel : Nat) (buf : Buffer) (i : Nat), buf.length ≤ i + fuel →
      sarLoop s r fuel buf i = buf.take i ++ (buf.drop i).map (reSub s r) := by
  intro fuel
  induction fuel with
  | zero =>
    intro buf i hle
    have h1 : buf.take i = buf := List.take_of_length_le (by omega)
    have h2 : buf.drop i = [] := List.drop_eq_nil_of_le (by omega)
    simp [sarLoop, h1, h2]
  | succ f ih =>
    intro buf i hle
    simp only [sarLoop]
    split
    · rename_i hlt
      rw [ih (buf.set i (reSub s r buf[i])) (i + 1) (by simp; omega)]
      rw [List.set_eq_take_cons_drop _ hlt, List.drop_eq_getElem_cons hlt]
      have hlen : (buf.take i).length = i := by
        simp only [List.length_take]
        omega
      have ht : (buf.take i ++ reSub s r buf[i] :: buf.drop (i + 1)).take (i + 1) =
          buf.take i ++ [reSub s r buf[i]] := by
        rw [List.take_append_eq_append_take, hlen,
          List.take_of_length_le (by omega)]
        simp
      have hd : (buf.take i ++ reSub s r buf[i] :: buf.drop (i + 1)).drop (i + 1) =
          buf.drop (i + 1) := by
        rw [List.drop_append_eq_append_drop, hlen,
          List.drop_eq_nil_of_le (by omega)]
        simp
      rw [ht, hd]
      simp only [List.map_cons, List.append_assoc, List.singleton_append]
    · rename_i hge
      have h1 : buf.take i = buf := List.take_of_length_le (by omega)
      have h2 : buf.drop i = [] := List.drop_eq_nil_of_le (by omega)
      simp [h1, h2]

theorem search_and_replace_eq_map (buf : Buffer) (s : Rx) (r : List Char) :
    search_and_replace buf s r = buf.map (reSub s r) := by
  have h := sarLoop_eq_map s r buf.length buf 0 (by omega)
  simpa [search_and_replace] using h

/-- What a successful scan of `run_command` means: the match is the first
(hence shortest) scanned head-segment of the command string that is a
registered name, and the handler gets the rest of the string. -/
theorem resolveFrom_spec (cmd : List Char) :
    ∀ (fuel i : Nat) (n args : List Char),
      resolveFrom cmd fuel i = some (n, args) →
      ∃ j, i ≤ j ∧ j ≤ cmd.length ∧ n = cmd.take j ∧ args = cmd.drop j ∧
        cmd.take j ∈ commandNames ∧
        ∀ m, i ≤ m → m < j → cmd.take m ∉ commandNames := by
  intro fuel
  induction fuel with
  | zero =>
    intro i n args h
    exact absurd h (by simp [resolveFrom])
  | succ f ih =>
    intro i n args h
    simp only [resolveFrom] at h
    by_cases hi : i ≤ cmd.length
    · rw [if_pos hi] at h
      by_cases hm : cmd.take i ∈ commandNames
      · rw [if_pos hm] at h
        simp only [Option.some.injEq, Prod.mk.injEq] at h
        obtain ⟨hn, hargs⟩ := h
        exact ⟨i, Nat.le_refl i, hi, hn.symm, hargs.symm, hm,
          fun m h1 h2 => absurd h2 (by omega)⟩
      · rw [if_neg hm] at h
        obtain ⟨j, hj1, hj2, hj3, hj4, hj5, hj6⟩ := ih (i + 1) n args h
        refine ⟨j, by omega, hj2, hj3, hj4, hj5, ?_⟩
        intro m h1 h2
        rcases Nat.eq_or_lt_of_le h1 with heq | hlt
        · rw [← heq]
          exact hm
        · exact hj6 m hlt h2
    · rw [if_neg hi] at h
      exact absurd h (by simp)

/-- C6: resolution scans head segments of increasing length (the length-0
segment matches no registered name, so effectively from length 1 up to the
full string) and fires the first registered name equal to such a segment,
handing it the remainder of the string; hence with both `f` and `file`
registered, `file x` resolves to `f` with argument `"ile x"` and the
longer registration is never reached. -/
theorem C6_shortest_match_first (cmd n args : List Char)
    (h : run_command_resolve cmd = some (n, args)) :
    n ∈ commandNames ∧ n ++ args = cmd ∧
      (∀ m, m < n.length → cmd.take m ∉ commandNames) ∧
      run_command_resolve ['f', 'i', 'l', 'e', ' ', 'x'] =
        some (['f'], ['i', 'l', 'e', ' ', 'x']) := by
  obtain ⟨j, _, hj2, hj3, hj4, hj5, hj6⟩ :=
    resolveFrom_spec cmd (cmd.length + 1) 0 n args h
  have hnlen : n.length = j := by
    rw [hj3, List.length_take]
    omega
  refine ⟨hj3 ▸ hj5, ?_, ?_, by decide⟩
  · rw [hj3, hj4]
    exact List.take_append_drop j cmd
  · intro m hm
    exact hj6 m (Nat.zero_le m) (by omega)

theorem C6_shortest_match_first_witness :
    run_command_resolve ['q', ' ', 'z'] = some (['q'], [' ', 'z']) ∧
      (['q'] : List Char) ∈ commandNames ∧
      ['q'] ++ [' ', 'z'] = ['q', ' ', 'z'] :=
  ⟨by decide,
    (C6_shortest_match_first ['q', ' ', 'z'] ['q'] [' ', 'z'] (by decide)).1,
    (C6_shortest_match_first ['q', ' ', 'z'] ['q'] [' ', 'z'] (by decide)).2.1⟩

/-- C7 (the code at the failing input): the startup path of `main` builds
the buffer with `contents.split()` — a whitespace split that drops empty
pieces — not a split on newline, so the file text `"a b"` loads as the two
lines `["a", "b"]` instead of the single line `["a b"]`.  The
`f`/`file`-command path (`contents.split("\n")`) and the empty-file
seeding behave as the claim states. -/
theorem C7_startup_splits_on_whitespace :
    startup_load ['a', ' ', 'b'] = [['a'], ['b']] ∧
      startup_load ['a', ' ', 'b'] ≠ [['a', ' ', 'b']] ∧
      startup_load [] = [[]] ∧
      command_file_load ['a', ' ', 'b'] = [['a', ' ', 'b']] ∧
      command_file_load [] = [[]] ∧
      command_file_load ['a', '\n', '\n', 'b'] = [['a'], [], ['b']] ∧
      startup_load ['a', '\n', '\n', 'b'] = [['a'], ['b']] := by
  decide

/-- C8 (counterexample): submitting the command string `"x"`, which no
scanned head segment resolves, clears the command buffer but leaves the
machine in command mode: `set_mode("normal")` only runs inside the
matching branch of `run_command`. -/
theorem C8_unresolved_stays_in_command_mode :
    runCommandStep ['x'] Mode.command = ([], Mode.command, none) ∧
      (runCommandStep ['x'] Mode.command).2.1 ≠ Mode.normal := by
  decide

/-- C8 (amended): on every submission the command buffer is cleared; when
the scan resolves a registered command the machine transitions to normal
mode after invoking its handler, but when nothing resolves the mode is
left unchanged — the machine stays in command mode. -/
theorem C8_submission_amended (cb : List Char) (m : Mode) :
    (runCommandStep cb m).1 = [] ∧
      ((run_command_resolve cb).isSome →
        (runCommandStep cb m).2.1 = Mode.normal) ∧
      (run_command_resolve cb = none → (runCommandStep cb m).2.1 = m) := by
  cases h : run_command_resolve cb with
  | none => simp [runCommandStep, h]
  | some v => simp [runCommandStep, h]

theorem C8_submission_amended_witness :
    (runCommandStep ['q'] Mode.command).1 = [] ∧
      (runCommandStep ['q'] Mode.command).2.1 = Mode.normal :=
  ⟨(C8_submission_amended ['q'] Mode.command).1,
    (C8_submission_amended ['q'] Mode.command).2.1 (by decide)⟩

theorem clamp_nonneg_toNat (col L : Nat) :
    (clamp 0 (L : Int) (col : Int)).toNat = min col L := by
  unfold clamp
  split
  · omega
  · split <;> omega

/-- C9: every normal-mode cursor move clamps the target line into
`[0, len(buffer) - 1]` and the target column into `[0, length of the
destination line]`, the column clamp being evaluated against the
destination line; in particular moving down (`j`) or up (`k`) leaves the
column at `min(previous column, destination line length)`. -/
theorem C9_move_cursor_clamps (ed : Ed) (c l : Int) (h : ed.buffer ≠ []) :
    (move_cursor ed c l).line_no < ed.buffer.length ∧
      (move_cursor ed c l).column ≤
        (ed.buffer.getD (move_cursor ed c l).line_no []).length ∧
      (move_cursor ed 0 1).column =
        min ed.column
          ((ed.buffer.getD (move_cursor ed 0 1).line_no []).length) ∧
      (move_cursor ed 0 (-1)).column =
        min ed.column
          ((ed.buffer.getD (move_cursor ed 0 (-1)).line_no []).length) := by
  have hinv := move_cursor_inv ed c l h
  refine ⟨hinv.1, hinv.2, ?_, ?_⟩
  · simp only [move_cursor, Int.add_zero]
    exact clamp_nonneg_toNat _ _
  · simp only [move_cursor, Int.add_zero]
    exact clamp_nonneg_toNat _ _

theorem C9_move_cursor_clamps_witness :
    (initEd [['a']]).buffer ≠ [] ∧
      ((move_cursor (initEd [['a']]) 1 1).line_no <
          (initEd [['a']]).buffer.length ∧
        (move_cursor (initEd [['a']]) 1 1).column ≤
          ((initEd [['a']]).buffer.getD
            (move_cursor (initEd [['a']]) 1 1).line_no []).length ∧
        (move_cursor (initEd [['a']]) 0 1).column =
          min (initEd [['a']]).column
            (((initEd [['a']]).buffer.getD
              (move_cursor (initEd [['a']]) 0 1).line_no []).length) ∧
        (move_cursor (initEd [['a']]) 0 (-1)).column =
          min (initEd [['a']]).column
            (((initEd [['a']]).buffer.getD
              (move_cursor (initEd [['a']]) 0 (-1)).line_no []).length)) :=
  ⟨by decide, C9_move_cursor_clamps (initEd [['a']]) 1 1 (by decide)⟩

/-- C10: `/` and `s` treat their pattern as a regular expression, not a
literal string, and search-and-replace substitutes on every line with
all-matches-per-line semantics: `search_and_replace` is the map of
`re.sub` over the buffer; `re.sub` replaces both occurrences of `ab` in
`"abab"`; the pattern `.` (a regex metacharacter, matching any character)
rewrites every character of `"ab"` though the line contains no literal
dot; and `command_search`'s scan finds the pattern `.b` in the line
`"xb"`, which does not contain it literally. -/
theorem C10_patterns_are_regexes :
    (∀ (buf : Buffer) (s : Rx) (r : List Char),
        search_and_replace buf s r = buf.map (reSub s r)) ∧
      reSub [RxTok.lit 'a', RxTok.lit 'b'] ['x'] ['a', 'b', 'a', 'b'] =
        ['x', 'x'] ∧
      reSub [RxTok.dot] ['z'] ['a', 'b'] = ['z', 'z'] ∧
      findFirstMatch [['q', 'q'], ['x', 'b']] [RxTok.dot, RxTok.lit 'b'] 0 =
        some (1, 0) :=
  ⟨search_and_replace_eq_map, by decide, by decide, by decide⟩
